import Mathlib

/-!
Verification development for the AutoBlog-Assistant repository.

This file gives a shallow embedding of the pure, data-transforming parts of
the Python sources (`src/researcher.py`, `src/file_manager.py`,
`src/image_generator.py`) and proves properties about them.

Strings are modelled by Lean `String`/`List Char`; the Python string
operations used by the code (`str.lower`, `str.strip`, `str.lstrip` with a
character set, `str.startswith`, `str.split("\n")`, `"\n".join`, slicing,
`re.sub` with the concrete patterns appearing in the code) are embedded as
executable functions over `List Char`.  `str.lower` and the whitespace set of
`str.strip` are modelled on their ASCII behaviour, which is exhaustive for the
ASCII header keywords and bullet markers the code matches on.
-/

namespace AutoBlog

/-- ASCII whitespace, the characters Python's `str.strip()` / `\s` remove. -/
def isPySpace (c : Char) : Bool :=
  c == ' ' || c == '\t' || c == '\n' || c == '\r' || c == '\x0b' || c == '\x0c'

/-- Does `pre` occur at the beginning of `l`?  (Python `str.startswith`.) -/
def beginsWith : List Char → List Char → Bool
  | [], _ => true
  | _ :: _, [] => false
  | a :: as, b :: bs => a == b && beginsWith as bs

/-- Does `needle` occur as a contiguous substring of `hay`?  (Python `in`.) -/
def hasSub (needle : List Char) : List Char → Bool
  | [] => needle.isEmpty
  | c :: cs => beginsWith needle (c :: cs) || hasSub needle cs

/-- Python `line.startswith(pre)` on `String`s. -/
def strStarts (s pre : String) : Bool := beginsWith pre.data s.data

/-- Python `needle in hay` on `String`s. -/
def strHasSub (hay needle : String) : Bool := hasSub needle.data hay.data

/-- Drop the characters of `set` from the front of `l` (Python `str.lstrip(set)`). -/
def dropSet (set : List Char) (l : List Char) : List Char :=
  l.dropWhile (fun c => set.contains c)

/-- Python `str.lstrip(set)` on `String`s. -/
def pyLstripSet (set : List Char) (s : String) : String := ⟨dropSet set s.data⟩

/-- Python `str.rstrip(set)` on `String`s. -/
def pyRstripSet (set : List Char) (s : String) : String :=
  ⟨((s.data.reverse.dropWhile (fun c => set.contains c))).reverse⟩

/-- Python `str.strip()` (whitespace, both ends) on `String`s. -/
def pyStripWs (s : String) : String :=
  ⟨((s.data.dropWhile isPySpace).reverse.dropWhile isPySpace).reverse⟩

/-- Python `str.lower()` on `String`s (ASCII case mapping). -/
def pyLower (s : String) : String := ⟨s.data.map Char.toLower⟩

/-- Split a character list at every occurrence of `sep`, keeping empty pieces
(Python `str.split(sep)` with a one-character separator). -/
def splitCharList (sep : Char) : List Char → List (List Char)
  | [] => [[]]
  | c :: cs =>
    let r := splitCharList sep cs
    if c == sep then [] :: r
    else
      match r with
      | [] => [[c]]
      | h :: t => (c :: h) :: t

/-- Python `response.split("\n")`. -/
def pySplitNl (s : String) : List String := (splitCharList '\n' s.data).map (fun l => ⟨l⟩)

/-- Python `"\n".join(content)` at the character level. -/
def joinNlCore : List String → List Char
  | [] => []
  | [s] => s.data
  | s :: rest => s.data ++ '\n' :: joinNlCore rest

/-- Python `"\n".join(content)`. -/
def joinNl (content : List String) : String := ⟨joinNlCore content⟩

/-! ## `file_manager.slugify` -/

/-- A lowercase ASCII letter or decimal digit. -/
def isLetterDigit (c : Char) : Bool :=
  ('a' ≤ c && c ≤ 'z') || ('0' ≤ c && c ≤ '9')

/-- A character kept by the filter `re.sub(r'[^a-z0-9\-]', '', text)`. -/
def isSlugChar (c : Char) : Bool := isLetterDigit c || c == '-'

/-- A character matched by `re.sub(r'[\s_]+', '-', text)`: whitespace or `_`. -/
def isWsU (c : Char) : Bool := isPySpace c || c == '_'

/-- Replace every maximal run of characters satisfying `p` by the single
character `rep`; the boolean flag records whether we are inside such a run.
This is `re.sub(p+, rep, ·)` for a character-class pattern `p`. -/
def collapseRunsAux (p : Char → Bool) (rep : Char) : Bool → List Char → List Char
  | _, [] => []
  | inRun, c :: cs =>
    if p c then
      if inRun then collapseRunsAux p rep true cs
      else rep :: collapseRunsAux p rep true cs
    else c :: collapseRunsAux p rep false cs

/-- `re.sub(p+, rep, l)` for a character class `p`. -/
def collapseRuns (p : Char → Bool) (rep : Char) (l : List Char) : List Char :=
  collapseRunsAux p rep false l

/-- Python `str.strip(set)` behaviour at the character-list level. -/
def stripChar (p : Char → Bool) (l : List Char) : List Char :=
  ((l.dropWhile p).reverse.dropWhile p).reverse

/-- The slug text built by `slugify` before the final empty check and the
`[:50]` truncation: lowercase, collapse whitespace/underscores to hyphens,
drop disallowed characters, collapse hyphen runs, strip outer hyphens. -/
def slugCore (x : String) : List Char :=
  stripChar (fun c => c == '-')
    (collapseRuns (fun c => c == '-') '-'
      ((collapseRuns isWsU '-' (x.data.map Char.toLower)).filter isSlugChar))

/-- `file_manager.slugify`: `return text[:50] if text else "untitled"`. -/
def slugify (x : String) : String :=
  let t := slugCore x
  if t.isEmpty then "untitled" else ⟨t.take 50⟩

/-! ## `researcher.parse_research_response` -/

/-- One blog angle, `{"title": ..., "description": ...}`. -/
structure Angle where
  title : String
  description : String
deriving DecidableEq

/-- The `sections` dictionary built by `parse_research_response`. -/
structure Sections where
  summary : String
  key_facts : List String
  angles : List Angle
  sources : List String
deriving DecidableEq

/-- Which of the four sections a header line opens. -/
inductive SectionType where
  | summary
  | key_facts
  | angles
  | sources
deriving DecidableEq

/-- The header detection of the parser loop: `line.lower().strip()` must
contain the section keyword and the raw line must start with `#`.  The
if/elif order of the Python code decides ties. -/
def headerOf (line : String) : Option SectionType :=
  let ll := pyStripWs (pyLower line)
  if strHasSub ll "research summary" && strStarts line "#" then some .summary
  else if strHasSub ll "key facts" && strStarts line "#" then some .key_facts
  else if strHasSub ll "blog angles" && strStarts line "#" then some .angles
  else if strHasSub ll "suggested sources" && strStarts line "#" then some .sources
  else none

/-- `process_section` for `section_type == "summary"`: `"\n".join(content).strip()`. -/
def processSummary (content : List String) : String :=
  pyStripWs (joinNl content)

/-- The character set of `line.lstrip("-*•0123456789.): ")`. -/
def factStripSet : List Char :=
  ['-', '*', '•', '0', '1', '2', '3', '4', '5', '6', '7', '8', '9', '.', ')', ':', ' ']

/-- The numbered-item test `len(line) > 2 and line[0].isdigit() and line[1] in ".):"`.
The pattern guard makes the `len(line) > 2` bound explicit. -/
def isNumberedItem : List Char → Bool
  | a :: b :: _ :: _ => a.isDigit && (b == '.' || b == ')' || b == ':')
  | _ => false

/-- The full list-item test of the `key_facts`/`sources` branch, with the
same short-circuit order as the Python `or`. -/
def isListLine (line : String) : Bool :=
  strStarts line "-" || strStarts line "*" || strStarts line "•" || isNumberedItem line.data

/-- `process_section` for `section_type in ["key_facts", "sources"]`. -/
def processListItems (content : List String) : List String :=
  let text := pyStripWs (joinNl content)
  let items := content.foldl
    (fun items rawLine =>
      let line := pyStripWs rawLine
      if isListLine line then
        let item := pyStripWs (pyLstripSet factStripSet line)
        if item ≠ "" then items ++ [item] else items
      else items)
    []
  if items ≠ [] then items else if text ≠ "" then [text] else []

/-- The character set of `line.lstrip("123.#*- ")` used for angle titles. -/
def titleStripSet : List Char := ['1', '2', '3', '.', '#', '*', '-', ' ']

/-- The angle-title pattern `line.startswith(("1.", "2.", "3.", "**", "###"))`. -/
def isAngleTitleLine (line : String) : Bool :=
  strStarts line "1." || strStarts line "2." || strStarts line "3." ||
    strStarts line "**" || strStarts line "###"

/-- One iteration of the angle-parsing loop of `process_section`.  The
accumulator is the `angles` list built so far and the in-progress
`current_angle`. -/
def angleStep (acc : List Angle × Angle) (rawLine : String) : List Angle × Angle :=
  let line := pyStripWs rawLine
  let angles := acc.1
  let cur := acc.2
  if line = "" then
    if cur.title ≠ "" then (angles ++ [cur], ⟨"", ""⟩) else (angles, cur)
  else if isAngleTitleLine line then
    let angles' := if cur.title ≠ "" then angles ++ [cur] else angles
    let t := pyStripWs (pyLstripSet titleStripSet line)
    let t := pyStripWs (pyRstripSet ['*'] t)
    (angles', ⟨t, ""⟩)
  else if cur.title ≠ "" then
    let descLine := pyStripWs (pyLstripSet ['-', '*', '•', ' '] line)
    let d := if cur.description ≠ "" then cur.description ++ " " ++ descLine else descLine
    (angles, ⟨cur.title, d⟩)
  else (angles, cur)

/-- The body of the `while len(angles) < 3` padding loop, with an explicit
iteration bound.  Each iteration appends exactly one placeholder, so the
Python loop runs at most `3` times; `padAnglesFuel_exits` below checks the
bound `3` always suffices (the loop's exit condition holds afterwards). -/
def padAnglesFuel : Nat → List Angle → List Angle
  | 0, l => l
  | n + 1, l =>
    if l.length < 3 then
      padAnglesFuel n (l ++ [⟨"Perspective " ++ toString (l.length + 1),
        "An alternative viewpoint on the topic."⟩])
    else l

/-- The `while len(angles) < 3` padding loop: append `Perspective N`
placeholders until at least three angles exist. -/
def padAngles (l : List Angle) : List Angle := padAnglesFuel 3 l

/-- `process_section` for `section_type == "angles"`. -/
def processAngles (content : List String) : List Angle :=
  let p := content.foldl angleStep ([], ⟨"", ""⟩)
  let angles := if p.2.title ≠ "" then p.1 ++ [p.2] else p.1
  (padAngles angles).take 3

/-- Write the processed content of a section into the `sections` dictionary
(the assignments `sections[current_section] = process_section(...)`). -/
def applySection (secs : Sections) (st : SectionType) (content : List String) : Sections :=
  match st with
  | .summary => { secs with summary := processSummary content }
  | .key_facts => { secs with key_facts := processListItems content }
  | .angles => { secs with angles := processAngles content }
  | .sources => { secs with sources := processListItems content }

/-- The loop state of `parse_research_response`: the `sections` dictionary,
`current_section` and `current_content`. -/
structure PState where
  secs : Sections
  cur : Option SectionType
  content : List String
deriving DecidableEq

/-- The initial `sections` dictionary. -/
def initSections : Sections := ⟨"", [], [], []⟩

/-- The parser state before the loop. -/
def initPState : PState := ⟨initSections, none, []⟩

/-- The conditional flush `if current_section and current_content:
sections[current_section] = process_section(...)`. -/
def flushIf (st : PState) : Sections :=
  match st.cur with
  | some s => if st.content ≠ [] then applySection st.secs s st.content else st.secs
  | none => st.secs

/-- One iteration of the line loop of `parse_research_response`. -/
def step (st : PState) (line : String) : PState :=
  match headerOf line with
  | some s => ⟨flushIf st, some s, []⟩
  | none =>
    match st.cur with
    | some _ => ⟨st.secs, st.cur, st.content ++ [line]⟩
    | none => st

/-- `parse_research_response` on an already-split list of lines. -/
def parseLines (lines : List String) : Sections :=
  flushIf (lines.foldl step initPState)

/-- `researcher.parse_research_response`. -/
def parse_research_response (response : String) : Sections :=
  parseLines (pySplitNl response)

/-! ## Exception-instrumented parser

The only operations of `parse_research_response`/`process_section` that can
raise in Python are the sequence indexings `line[0]` and `line[1]` in the
list-item test (guarded by `len(line) > 2`).  The `E` variants below model
them with `Except`, raising `IndexError` exactly where Python would; all
other operations are total.  Totality of the parser is the statement that
the instrumented parser always returns `Except.ok` of the pure result. -/

/-- The numbered-item test with Python's indexing modelled as a fallible
operation: evaluate `len(line) > 2` first, then index positions 0 and 1. -/
def isNumberedItemE (l : List Char) : Except String Bool :=
  if l.length > 2 then
    match l[0]? with
    | none => .error "IndexError"
    | some a =>
      match l[1]? with
      | none => .error "IndexError"
      | some b => .ok (a.isDigit && (b == '.' || b == ')' || b == ':'))
  else .ok false

/-- The list-item test with the same short-circuit order as the Python `or`:
the indexing is only reached when no bullet prefix matched. -/
def isListLineE (line : String) : Except String Bool :=
  if strStarts line "-" || strStarts line "*" || strStarts line "•" then .ok true
  else isNumberedItemE line.data

/-- Exception-instrumented `process_section` for `key_facts`/`sources`. -/
def processListItemsE (content : List String) : Except String (List String) := do
  let text := pyStripWs (joinNl content)
  let items ← content.foldlM
    (fun items rawLine => do
      let line := pyStripWs rawLine
      let b ← isListLineE line
      if b then
        let item := pyStripWs (pyLstripSet factStripSet line)
        pure (if item ≠ "" then items ++ [item] else items)
      else pure items)
    ([] : List String)
  pure (if items ≠ [] then items else if text ≠ "" then [text] else [])

/-- Exception-instrumented section write. -/
def applySectionE (secs : Sections) (st : SectionType) (content : List String) :
    Except String Sections :=
  match st with
  | .summary => pure { secs with summary := processSummary content }
  | .key_facts => do
    let items ← processListItemsE content
    pure { secs with key_facts := items }
  | .angles => pure { secs with angles := processAngles content }
  | .sources => do
    let items ← processListItemsE content
    pure { secs with sources := items }

/-- Exception-instrumented conditional flush. -/
def flushIfE (st : PState) : Except String Sections :=
  match st.cur with
  | some s =>
    if st.content ≠ [] then applySectionE st.secs s st.content else pure st.secs
  | none => pure st.secs

/-- Exception-instrumented loop iteration. -/
def stepE (st : PState) (line : String) : Except String PState :=
  match headerOf line with
  | some s => do
    let secs ← flushIfE st
    pure ⟨secs, some s, []⟩
  | none =>
    match st.cur with
    | some _ => pure ⟨st.secs, st.cur, st.content ++ [line]⟩
    | none => pure st

/-- Exception-instrumented `parse_research_response`. -/
def parse_research_responseE (response : String) : Except String Sections := do
  let st ← (pySplitNl response).foldlM stepE initPState
  flushIfE st

/-! ## `researcher.research_topic` (post-API part) -/

/-- The dictionary returned by `research_topic`: the parsed sections plus the
raw model response stored under `"raw_response"`. -/
structure ResearchResult extends Sections where
  raw_response : String
deriving DecidableEq

/-- The tail of `research_topic` after the Gemini call: parse the response
text and attach it unmodified under `raw_response`. -/
def research_topic_result (response_text : String) : ResearchResult :=
  { parse_research_response response_text with raw_response := response_text }

/-! ## `image_generator.generate_all_images`

The external call `generate_image(...)` (a network request) is abstracted as
an oracle `gen` mapping the loop index and the blog record to either image
bytes or a raised exception.  The `progress_callback` only performs output
and does not affect the returned list, so it is not modelled.  The loop
appends the generated bytes on success and `None` when the call raises. -/

def generate_all_images {β γ : Type} (gen : Nat → β → Except String γ)
    (blogs : List β) : List (Option γ) :=
  blogs.enum.foldl
    (fun images ib =>
      match gen ib.1 ib.2 with
      | .ok bytes => images ++ [some bytes]
      | .error _ => images ++ [none])
    []

/-! ## Concrete inputs used in counterexamples and witnesses -/

/-- Fifty-one characters `a-a-…-a`: its slug is itself, so truncation to 50
characters leaves a trailing hyphen. -/
def slugTruncationInput : String :=
  "a-a-a-a-a-a-a-a-a-a-a-a-a-a-a-a-a-a-a-a-a-a-a-a-a-a"

/-! # Theorems -/

/-! ## Angle-count lemmas -/

theorem padAnglesFuel_exits (n : Nat) :
    ∀ (l : List Angle), 3 - l.length ≤ n → 3 ≤ (padAnglesFuel n l).length := by
  induction n with
  | zero =>
    intro l h
    show 3 ≤ l.length
    omega
  | succ n ih =>
    intro l h
    show 3 ≤ (if l.length < 3 then _ else l).length
    by_cases hlt : l.length < 3
    · rw [if_pos hlt]
      apply ih
      simp only [List.length_append, List.length_cons, List.length_nil]
      omega
    · rw [if_neg hlt]
      omega

theorem three_le_padAngles_length (l : List Angle) : 3 ≤ (padAngles l).length :=
  padAnglesFuel_exits 3 l (by omega)

theorem processAngles_length (content : List String) :
    (processAngles content).length = 3 := by
  unfold processAngles
  simp only [List.length_take]
  exact Nat.min_eq_left (three_le_padAngles_length _)

theorem flushIf_angles_inv (st : PState)
    (h : st.secs.angles = [] ∨ st.secs.angles.length = 3) :
    (flushIf st).angles = [] ∨ (flushIf st).angles.length = 3 := by
  obtain ⟨secs, cur, content⟩ := st
  cases cur with
  | none => exact h
  | some s =>
    by_cases hne : content = []
    · simp only [flushIf, hne, ne_eq, not_true_eq_false, if_false]
      exact h
    · cases s <;> simp only [flushIf, applySection, ne_eq, hne, not_false_eq_true, if_true]
      · exact h
      · exact h
      · exact Or.inr (processAngles_length _)
      · exact h

theorem foldl_step_angles_inv (ls : List String) :
    ∀ (st : PState), (st.secs.angles = [] ∨ st.secs.angles.length = 3) →
      ((ls.foldl step st).secs.angles = [] ∨ (ls.foldl step st).secs.angles.length = 3) := by
  induction ls with
  | nil => intro st h; exact h
  | cons a as ih =>
    intro st h
    apply ih
    unfold step
    cases ha : headerOf a with
    | some s => exact flushIf_angles_inv st h
    | none =>
      cases hc : st.cur with
      | some s => exact h
      | none => exact h

/-- **C2 (amended)** — The parser does not always return exactly 3 angles:
when the blog-angles section is never flushed (no "blog angles" header with
content), `angles` stays the initial empty list.  What does hold for every
input string is the dichotomy: `angles` is either empty or has length
exactly 3; whenever the angles section is processed, fewer than 3 parsed
angles are padded with "Perspective N" placeholders and more than 3 are
truncated, so the processed value always has length 3. -/
theorem parse_angles_empty_or_three (s : String) :
    (parse_research_response s).angles = [] ∨
      (parse_research_response s).angles.length = 3 := by
  unfold parse_research_response parseLines
  apply flushIf_angles_inv
  exact foldl_step_angles_inv _ initPState (Or.inl rfl)

/-- **C2 (counterexample)** — On the empty input string the parser returns
an empty `angles` list, not a list of length 3. -/
theorem parse_angles_empty_input_cex :
    (parse_research_response "").angles = [] ∧
      (parse_research_response "").angles.length ≠ 3 := by decide

/-! ## Header-free inputs -/

theorem foldl_step_no_header (ls : List String) :
    ∀ (st : PState), st.cur = none → (∀ l ∈ ls, headerOf l = none) →
      ls.foldl step st = st := by
  induction ls with
  | nil => intro st _ _; rfl
  | cons a as ih =>
    intro st hcur h
    have ha : headerOf a = none := h a (List.mem_cons_self a as)
    have hstep : step st a = st := by
      unfold step
      rw [ha, hcur]
    rw [List.foldl_cons, hstep]
    exact ih st hcur (fun l hl => h l (List.mem_cons_of_mem a hl))

/-- **C1 (amended)** — For every input string none of whose lines is a
recognized section header, the parser returns the initial sections value:
empty summary, empty `key_facts`, empty `sources`, and an *empty* `angles`
list (the claimed 3 placeholder angles are only synthesized when a
blog-angles section with content is actually processed). -/
theorem parse_no_header_empty (s : String)
    (h : ∀ l ∈ pySplitNl s, headerOf l = none) :
    parse_research_response s = ⟨"", [], [], []⟩ := by
  unfold parse_research_response parseLines
  rw [foldl_step_no_header (pySplitNl s) initPState rfl h]
  rfl

/-- **C1 (witness)** — The amended statement applied to the header-free
input `"hello"`. -/
theorem parse_no_header_empty_witness :
    parse_research_response "hello" = ⟨"", [], [], []⟩ :=
  parse_no_header_empty "hello" (by decide)

/-- **C1 (counterexample)** — The input `"hello"` contains none of the four
recognized section headers, yet the parser returns an empty `angles` list
rather than a list of exactly 3 placeholder angles. -/
theorem parse_no_header_angles_cex :
    (∀ l ∈ pySplitNl "hello", headerOf l = none) ∧
      (parse_research_response "hello").angles = [] ∧
      (parse_research_response "hello").angles.length ≠ 3 := by decide

/-! ## Concrete parsing examples -/

/-- **C8** — The angles-section body
`"### 1. Bold Angle\nSome detail line.\n\n### 2. Other\nMore detail.\n"`
describes two angles; `process_section` for the angles section returns
exactly 3 records, the third being the synthesized "Perspective 3"
placeholder. -/
theorem angles_two_plus_placeholder :
    processAngles (pySplitNl "### 1. Bold Angle\nSome detail line.\n\n### 2. Other\nMore detail.\n") =
      [⟨"Bold Angle", "Some detail line."⟩, ⟨"Other", "More detail."⟩,
        ⟨"Perspective 3", "An alternative viewpoint on the topic."⟩] := by decide

/-- **C9** — Parsing `"## Key Facts\n- Fact one\n- Fact two\n"` yields
`key_facts = ["Fact one", "Fact two"]`, bullets stripped, order kept. -/
theorem key_facts_example :
    (parse_research_response "## Key Facts\n- Fact one\n- Fact two\n").key_facts =
      ["Fact one", "Fact two"] := by decide

/-! ## Duplicate headers: the later occurrence wins -/

theorem foldl_step_accum (ls : List String) (h : ∀ l ∈ ls, headerOf l = none) :
    ∀ (secs : Sections) (s : SectionType) (c : List String),
      ls.foldl step ⟨secs, some s, c⟩ = ⟨secs, some s, c ++ ls⟩ := by
  induction ls with
  | nil => intro secs s c; simp
  | cons a as ih =>
    intro secs s c
    have ha : headerOf a = none := h a (List.mem_cons_self a as)
    have hstep : step ⟨secs, some s, c⟩ a = ⟨secs, some s, c ++ [a]⟩ := by
      unfold step
      rw [ha]
    rw [List.foldl_cons, hstep, ih (fun l hl => h l (List.mem_cons_of_mem a hl))]
    simp

theorem step_header (st : PState) (hdr : String) (s : SectionType)
    (h : headerOf hdr = some s) : step st hdr = ⟨flushIf st, some s, []⟩ := by
  unfold step
  rw [h]

/-- **C10** — When the input contains two headers opening the same section
(here: `key_facts`), the returned value for that section reflects only the
lines accumulated under the last such header with non-empty content: the
later occurrence's processed content overwrites the earlier occurrence's
result.  `pre` is arbitrary; `mid` and `post` are the lines accumulated
under the first and second header and contain no headers themselves. -/
theorem last_key_facts_header_wins (pre mid post : List String) (h1 h2 : String)
    (hh1 : headerOf h1 = some SectionType.key_facts)
    (hh2 : headerOf h2 = some SectionType.key_facts)
    (hmid : ∀ l ∈ mid, headerOf l = none)
    (hpost : ∀ l ∈ post, headerOf l = none) :
    (parseLines (pre ++ h1 :: (mid ++ h2 :: post))).key_facts =
      (if post = [] then
        (if mid = [] then (parseLines pre).key_facts else processListItems mid)
      else processListItems post) := by
  unfold parseLines
  rw [List.foldl_append, List.foldl_cons, step_header _ h1 _ hh1,
    List.foldl_append, foldl_step_accum mid hmid, List.foldl_cons,
    step_header _ h2 _ hh2, foldl_step_accum post hpost]
  simp only [List.nil_append]
  by_cases hp : post = []
  · rw [if_pos hp, hp]
    show (flushIf ⟨flushIf ⟨flushIf (pre.foldl step initPState), some .key_facts, mid⟩,
      some .key_facts, []⟩).key_facts = _
    by_cases hm : mid = []
    · rw [if_pos hm, hm]
      rfl
    · rw [if_neg hm]
      show (flushIf ⟨flushIf (pre.foldl step initPState), some .key_facts, mid⟩).key_facts = _
      unfold flushIf
      simp only [ne_eq, hm, not_false_eq_true, if_true]
      rfl
  · rw [if_neg hp]
    show (flushIf ⟨flushIf ⟨flushIf (pre.foldl step initPState), some .key_facts, mid⟩,
      some .key_facts, post⟩).key_facts = _
    unfold flushIf
    simp only [ne_eq, hp, not_false_eq_true, if_true]
    rfl

/-- **C10 (witness)** — Two `## Key Facts` headers: only the facts under the
second one survive. -/
theorem last_key_facts_header_wins_witness :
    (parseLines (["intro"] ++ "## Key Facts" :: (["- old fact"] ++ "## Key Facts" :: ["- new fact"]))).key_facts =
      (if (["- new fact"] : List String) = [] then
        (if (["- old fact"] : List String) = [] then (parseLines ["intro"]).key_facts
         else processListItems ["- old fact"])
      else processListItems ["- new fact"]) :=
  last_key_facts_header_wins ["intro"] ["- old fact"] ["- new fact"]
    "## Key Facts" "## Key Facts" (by decide) (by decide) (by decide) (by decide)

/-! ## Totality of the parser -/

theorem isNumberedItemE_eq (l : List Char) :
    isNumberedItemE l = Except.ok (isNumberedItem l) := by
  match l with
  | [] => rfl
  | [a] => rfl
  | [a, b] => rfl
  | a :: b :: c :: rest =>
    show (if (a :: b :: c :: rest).length > 2 then _ else _) = _
    rw [if_pos (by simp)]
    rfl

theorem isListLineE_eq (line : String) :
    isListLineE line = Except.ok (isListLine line) := by
  unfold isListLineE isListLine
  by_cases h : (strStarts line "-" || strStarts line "*" || strStarts line "•") = true
  · rw [if_pos h, h]
    simp
  · rw [if_neg h, isNumberedItemE_eq]
    simp only [Bool.not_eq_true] at h
    rw [h]
    simp

theorem processListItemsE_eq (content : List String) :
    processListItemsE content = Except.ok (processListItems content) := by
  unfold processListItemsE processListItems
  have key : ∀ (c : List String) (acc : List String),
      (c.foldlM (fun items rawLine => do
        let line := pyStripWs rawLine
        let b ← isListLineE line
        if b then
          let item := pyStripWs (pyLstripSet factStripSet line)
          pure (if item ≠ "" then items ++ [item] else items)
        else pure items) acc : Except String (List String)) =
      Except.ok (c.foldl (fun items rawLine =>
        let line := pyStripWs rawLine
        if isListLine line then
          let item := pyStripWs (pyLstripSet factStripSet line)
          if item ≠ "" then items ++ [item] else items
        else items) acc) := by
    intro c
    induction c with
    | nil => intro acc; rfl
    | cons a as ih =>
      intro acc
      simp only [List.foldlM_cons, List.foldl_cons]
      rw [isListLineE_eq (pyStripWs a)]
      by_cases hb : isListLine (pyStripWs a) = true
      · rw [hb]
        exact ih _
      · simp only [Bool.not_eq_true] at hb
        rw [hb]
        exact ih _
  rw [key]
  rfl

theorem applySectionE_eq (secs : Sections) (st : SectionType) (content : List String) :
    applySectionE secs st content = Except.ok (applySection secs st content) := by
  cases st with
  | summary => rfl
  | key_facts =>
    show (processListItemsE content >>= _) = _
    rw [processListItemsE_eq]
    rfl
  | angles => rfl
  | sources =>
    show (processListItemsE content >>= _) = _
    rw [processListItemsE_eq]
    rfl

theorem flushIfE_eq (st : PState) : flushIfE st = Except.ok (flushIf st) := by
  obtain ⟨secs, cur, content⟩ := st
  cases cur with
  | none => rfl
  | some s =>
    by_cases h : content = []
    · simp only [flushIfE, flushIf, ne_eq, h, not_true_eq_false, if_false]
      rfl
    · simp only [flushIfE, flushIf, ne_eq, h, not_false_eq_true, if_true]
      exact applySectionE_eq secs s content

theorem stepE_eq (st : PState) (line : String) :
    stepE st line = Except.ok (step st line) := by
  unfold stepE step
  cases h : headerOf line with
  | some s =>
    show (flushIfE st >>= _) = _
    rw [flushIfE_eq]
    rfl
  | none =>
    cases st.cur with
    | some s => rfl
    | none => rfl

theorem foldlM_stepE_eq (ls : List String) :
    ∀ (st : PState), ls.foldlM stepE st = Except.ok (ls.foldl step st) := by
  induction ls with
  | nil => intro st; rfl
  | cons a as ih =>
    intro st
    rw [List.foldlM_cons, List.foldl_cons, stepE_eq]
    show (pure _ : Except String PState) >>= _ = _
    exact ih (step st a)

/-- **C3** — `parse_research_response` is total: the exception-instrumented
parser, in which Python's only fallible operations (the sequence indexings
`line[0]`/`line[1]` of the list-item test) are modelled in `Except`, returns
`Except.ok` of the pure parse result on every input string; it never raises,
and malformed or header-free inputs simply produce the empty/placeholder
section values of the pure parser. -/
theorem parse_research_response_total (response : String) :
    parse_research_responseE response = Except.ok (parse_research_response response) := by
  unfold parse_research_responseE parse_research_response parseLines
  rw [foldlM_stepE_eq]
  exact flushIfE_eq _

/-! ## Per-item image-generation failures -/

/-- **C7** — When generating images for 3 blog posts, a failure (raised
exception) of the second generation call is caught individually: the result
has length 3 with `None` at index 1 and the successful bytes at indices 0
and 2; the loop is not aborted. -/
theorem generate_all_images_isolates_failure {β γ : Type}
    (gen : Nat → β → Except String γ) (b0 b1 b2 : β) (x z : γ) (e : String)
    (h0 : gen 0 b0 = Except.ok x) (h1 : gen 1 b1 = Except.error e)
    (h2 : gen 2 b2 = Except.ok z) :
    generate_all_images gen [b0, b1, b2] = [some x, none, some z] := by
  unfold generate_all_images
  have henum : List.enum [b0, b1, b2] = [(0, b0), (1, b1), (2, b2)] := rfl
  rw [henum]
  simp only [List.foldl_cons, List.foldl_nil, h0, h1, h2]
  rfl

/-- **C7 (witness)** — A concrete oracle failing exactly on the second item. -/
theorem generate_all_images_isolates_failure_witness :
    generate_all_images
        (fun i (_ : String) =>
          if i = 1 then (Except.error "boom" : Except String Nat) else Except.ok i)
        ["a", "b", "c"] = [some 0, none, some 2] :=
  generate_all_images_isolates_failure _ "a" "b" "c" 0 2 "boom" rfl rfl rfl

/-! ## `research_topic` result shape -/

/-- **C6** — The dictionary built by `research_topic` stores the response
text unmodified under `raw_response`, alongside the four parsed fields. -/
theorem research_result_raw_unmodified (response_text : String) :
    (research_topic_result response_text).raw_response = response_text ∧
      (research_topic_result response_text).toSections =
        parse_research_response response_text :=
  ⟨rfl, rfl⟩

/-! ## Slugify: character-level lemmas -/

theorem slugChar_toNat (c : Char) (h : isSlugChar c = true) :
    (97 ≤ c.toNat ∧ c.toNat ≤ 122) ∨ (48 ≤ c.toNat ∧ c.toNat ≤ 57) ∨ c.toNat = 45 := by
  simp only [isSlugChar, isLetterDigit, Bool.or_eq_true, Bool.and_eq_true,
    decide_eq_true_eq, beq_iff_eq] at h
  rcases h with (⟨h1, h2⟩ | ⟨h1, h2⟩) | h3
  · exact Or.inl ⟨h1, h2⟩
  · exact Or.inr (Or.inl ⟨h1, h2⟩)
  · subst h3
    exact Or.inr (Or.inr rfl)

theorem toLower_eq_self_of_slugChar (c : Char) (h : isSlugChar c = true) :
    c.toLower = c := by
  have hn := slugChar_toNat c h
  show (if c.toNat ≥ 65 ∧ c.toNat ≤ 90 then Char.ofNat (c.toNat + 32) else c) = c
  rw [if_neg (by omega)]

theorem isWsU_eq_false_of_slugChar (c : Char) (h : isSlugChar c = true) :
    isWsU c = false := by
  have hn := slugChar_toNat c h
  simp only [isWsU, isPySpace, Bool.or_eq_false_iff]
  refine ⟨⟨⟨⟨⟨⟨?_, ?_⟩, ?_⟩, ?_⟩, ?_⟩, ?_⟩, ?_⟩ <;>
    · apply beq_eq_false_iff_ne.mpr
      rintro rfl
      exact absurd hn (by decide)

/-! ## Slugify: run-collapsing lemmas -/

theorem collapseRunsAux_cons_run (p : Char → Bool) (rep a : Char) (as : List Char)
    (hpa : p a = true) :
    collapseRunsAux p rep true (a :: as) = collapseRunsAux p rep true as := by
  simp [collapseRunsAux, hpa]

theorem collapseRunsAux_cons_start (p : Char → Bool) (rep a : Char) (as : List Char)
    (hpa : p a = true) :
    collapseRunsAux p rep false (a :: as) = rep :: collapseRunsAux p rep true as := by
  simp [collapseRunsAux, hpa]

theorem collapseRunsAux_cons_keep (p : Char → Bool) (rep a : Char) (as : List Char)
    (b : Bool) (hpa : p a = false) :
    collapseRunsAux p rep b (a :: as) = a :: collapseRunsAux p rep false as := by
  simp [collapseRunsAux, hpa]

theorem collapseRunsAux_eq_self (p : Char → Bool) (rep : Char) :
    ∀ (l : List Char), (∀ c ∈ l, p c = false) →
      ∀ (b : Bool), collapseRunsAux p rep b l = l := by
  intro l
  induction l with
  | nil => intro _ b; rfl
  | cons a as ih =>
    intro h b
    have hpa : p a = false := h a (List.mem_cons_self a as)
    rw [collapseRunsAux_cons_keep p rep a as b hpa]
    rw [ih (fun c hc => h c (List.mem_cons_of_mem a hc)) false]

theorem collapseRuns_eq_self (p : Char → Bool) (rep : Char) (l : List Char)
    (h : ∀ c ∈ l, p c = false) : collapseRuns p rep l = l :=
  collapseRunsAux_eq_self p rep l h false

theorem mem_collapseRunsAux (p : Char → Bool) (rep : Char) :
    ∀ (l : List Char) (b : Bool) (c : Char),
      c ∈ collapseRunsAux p rep b l → c = rep ∨ c ∈ l := by
  intro l
  induction l with
  | nil => intro b c hc; exact absurd hc (List.not_mem_nil c)
  | cons a as ih =>
    intro b c hc
    by_cases hpa : p a = true
    · cases b with
      | true =>
        rw [collapseRunsAux_cons_run p rep a as hpa] at hc
        rcases ih true c hc with h | h
        · exact Or.inl h
        · exact Or.inr (List.mem_cons_of_mem a h)
      | false =>
        rw [collapseRunsAux_cons_start p rep a as hpa] at hc
        rcases List.mem_cons.mp hc with h | h
        · exact Or.inl h
        · rcases ih true c h with h2 | h2
          · exact Or.inl h2
          · exact Or.inr (List.mem_cons_of_mem a h2)
    · rw [Bool.not_eq_true] at hpa
      rw [collapseRunsAux_cons_keep p rep a as b hpa] at hc
      rcases List.mem_cons.mp hc with h | h
      · exact Or.inr (h ▸ List.mem_cons_self a as)
      · rcases ih false c h with h2 | h2
        · exact Or.inl h2
        · exact Or.inr (List.mem_cons_of_mem a h2)

theorem collapseRunsAux_head?_true (p : Char → Bool) (rep : Char) :
    ∀ (l : List Char) (c : Char),
      (collapseRunsAux p rep true l).head? = some c → p c = false := by
  intro l
  induction l with
  | nil =>
    intro c hc
    exact absurd hc (by simp [collapseRunsAux])
  | cons a as ih =>
    intro c hc
    by_cases hpa : p a = true
    · rw [collapseRunsAux_cons_run p rep a as hpa] at hc
      exact ih c hc
    · rw [Bool.not_eq_true] at hpa
      rw [collapseRunsAux_cons_keep p rep a as true hpa,
        List.head?_cons, Option.some.injEq] at hc
      subst hc
      exact hpa

theorem chain'_collapseRunsAux (p : Char → Bool) (rep : Char) :
    ∀ (l : List Char) (b : Bool),
      List.Chain' (fun x y => ¬(p x = true ∧ p y = true)) (collapseRunsAux p rep b l) := by
  intro l
  induction l with
  | nil => intro b; simp [collapseRunsAux]
  | cons a as ih =>
    intro b
    by_cases hpa : p a = true
    · cases b with
      | true =>
        rw [collapseRunsAux_cons_run p rep a as hpa]
        exact ih true
      | false =>
        rw [collapseRunsAux_cons_start p rep a as hpa]
        refine List.chain'_cons'.mpr ⟨?_, ih true⟩
        intro y hy hand
        have hy2 := collapseRunsAux_head?_true p rep as y hy
        rw [hy2] at hand
        exact absurd hand.2 (by simp)
    · rw [Bool.not_eq_true] at hpa
      rw [collapseRunsAux_cons_keep p rep a as b hpa]
      refine List.chain'_cons'.mpr ⟨?_, ih false⟩
      intro y _ hand
      rw [hpa] at hand
      exact absurd hand.1 (by simp)

theorem collapseDashAux_id :
    ∀ (l : List Char),
      List.Chain' (fun x y => ¬((x == '-') = true ∧ (y == '-') = true)) l →
      collapseRunsAux (fun c => c == '-') '-' false l = l ∧
        (l.head? ≠ some '-' → collapseRunsAux (fun c => c == '-') '-' true l = l) := by
  intro l
  induction l with
  | nil => exact fun _ => ⟨rfl, fun _ => rfl⟩
  | cons a as ih =>
    intro h
    obtain ⟨hrel, hch⟩ := List.chain'_cons'.mp h
    obtain ⟨ih1, ih2⟩ := ih hch
    by_cases hpa : (a == '-') = true
    · have ha : a = '-' := beq_iff_eq.mp hpa
      have hhd : as.head? ≠ some '-' := by
        intro hhd0
        exact hrel '-' hhd0 ⟨hpa, by decide⟩
      constructor
      · rw [collapseRunsAux_cons_start (fun c => c == '-') '-' a as hpa]
        rw [ih2 hhd, ha]
      · intro hne
        exact absurd (show (a :: as).head? = some '-' by rw [List.head?_cons, ha]) hne
    · rw [Bool.not_eq_true] at hpa
      constructor
      · rw [collapseRunsAux_cons_keep (fun c => c == '-') '-' a as false hpa]
        rw [ih1]
      · intro _
        rw [collapseRunsAux_cons_keep (fun c => c == '-') '-' a as true hpa]
        rw [ih1]

theorem collapseDash_id (l : List Char)
    (h : List.Chain' (fun x y => ¬((x == '-') = true ∧ (y == '-') = true)) l) :
    collapseRuns (fun c => c == '-') '-' l = l :=
  (collapseDashAux_id l h).1

/-! ## Slugify: dropWhile and strip lemmas -/

theorem head?_dropWhile_not (p : Char → Bool) :
    ∀ (l : List Char) (c : Char), (l.dropWhile p).head? = some c → p c = false := by
  intro l
  induction l with
  | nil => intro c hc; exact absurd hc (by simp)
  | cons a as ih =>
    intro c hc
    by_cases hpa : p a = true
    · rw [List.dropWhile_cons, if_pos hpa] at hc
      exact ih c hc
    · rw [List.dropWhile_cons, if_neg hpa] at hc
      rw [List.head?_cons, Option.some.injEq] at hc
      subst hc
      exact Bool.not_eq_true _ ▸ hpa

theorem dropWhile_eq_self_of_head? (p : Char → Bool) (l : List Char)
    (h : ∀ c, l.head? = some c → p c = false) : l.dropWhile p = l := by
  cases l with
  | nil => rfl
  | cons a as =>
    have hpa : p a = false := h a rfl
    rw [List.dropWhile_cons, if_neg (by simp [hpa])]

theorem getLast?_dropWhile (p : Char → Bool) :
    ∀ (l : List Char), l.dropWhile p ≠ [] →
      (l.dropWhile p).getLast? = l.getLast? := by
  intro l
  induction l with
  | nil => intro h; rfl
  | cons a as ih =>
    intro h
    by_cases hpa : p a = true
    · rw [List.dropWhile_cons, if_pos hpa] at h ⊢
      rw [ih h]
      cases as with
      | nil => exact absurd (by simp) h
      | cons b bs => exact (List.getLast?_cons_cons).symm
    · rw [List.dropWhile_cons, if_neg hpa]

theorem mem_stripChar (p : Char → Bool) (l : List Char) (c : Char)
    (hc : c ∈ stripChar p l) : c ∈ l := by
  unfold stripChar at hc
  rw [List.mem_reverse] at hc
  have h1 := (List.dropWhile_suffix p).subset hc
  rw [List.mem_reverse] at h1
  exact (List.dropWhile_suffix p).subset h1

theorem chain'_stripChar (R : Char → Char → Prop) (hsymm : ∀ x y, R x y → R y x)
    (p : Char → Bool) (l : List Char) (h : List.Chain' R l) :
    List.Chain' R (stripChar p l) := by
  unfold stripChar
  have h1 : List.Chain' R (l.dropWhile p) := h.suffix (List.dropWhile_suffix p)
  have h2 : List.Chain' R (l.dropWhile p).reverse :=
    List.chain'_reverse.mpr (h1.imp (fun a b hab => hsymm a b hab))
  have h3 : List.Chain' R ((l.dropWhile p).reverse.dropWhile p) :=
    h2.suffix (List.dropWhile_suffix p)
  exact List.chain'_reverse.mpr (h3.imp (fun a b hab => hsymm a b hab))

theorem head?_stripChar (p : Char → Bool) (l : List Char) (c : Char)
    (hc : (stripChar p l).head? = some c) : p c = false := by
  unfold stripChar at hc
  rw [List.head?_reverse] at hc
  have hne : (l.dropWhile p).reverse.dropWhile p ≠ [] := by
    intro h0
    rw [h0] at hc
    exact absurd hc (by simp)
  rw [getLast?_dropWhile p _ hne, List.getLast?_reverse] at hc
  exact head?_dropWhile_not p l c hc

theorem getLast?_stripChar (p : Char → Bool) (l : List Char) (c : Char)
    (hc : (stripChar p l).getLast? = some c) : p c = false := by
  unfold stripChar at hc
  rw [List.getLast?_reverse] at hc
  exact head?_dropWhile_not p _ c hc

theorem stripChar_eq_self (p : Char → Bool) (l : List Char)
    (h1 : ∀ c, l.head? = some c → p c = false)
    (h2 : ∀ c, l.getLast? = some c → p c = false) :
    stripChar p l = l := by
  unfold stripChar
  rw [dropWhile_eq_self_of_head? p l h1]
  rw [dropWhile_eq_self_of_head? p l.reverse
    (fun c hc => h2 c (by rwa [List.head?_reverse] at hc))]
  exact List.reverse_reverse l

/-! ## Slugify: properties of the slug core -/

theorem mem_slugCore (x : String) (c : Char) (hc : c ∈ slugCore x) :
    isSlugChar c = true := by
  unfold slugCore at hc
  have h1 := mem_stripChar _ _ _ hc
  rcases mem_collapseRunsAux (fun c => c == '-') '-' _ false c h1 with h | h
  · subst h
    decide
  · exact List.of_mem_filter h

theorem chain'_slugCore (x : String) :
    List.Chain' (fun a b => ¬((a == '-') = true ∧ (b == '-') = true)) (slugCore x) := by
  unfold slugCore
  apply chain'_stripChar
  · exact fun a b hab hand => hab ⟨hand.2, hand.1⟩
  · exact chain'_collapseRunsAux (fun c => c == '-') '-' _ false

theorem head?_slugCore (x : String) (hc : (slugCore x).head? = some '-') : False := by
  have h := head?_stripChar (fun c => c == '-') _ '-' hc
  exact absurd h (by decide)

theorem slugCore_of_clean (u : List Char)
    (hall : ∀ c ∈ u, isSlugChar c = true)
    (hchain : List.Chain' (fun a b => ¬((a == '-') = true ∧ (b == '-') = true)) u)
    (hhd : u.head? ≠ some '-')
    (hlast : u.getLast? ≠ some '-') :
    slugCore ⟨u⟩ = u := by
  show stripChar (fun c => c == '-')
    (collapseRuns (fun c => c == '-') '-'
      ((collapseRuns isWsU '-' (u.map Char.toLower)).filter isSlugChar)) = u
  have h1 : u.map Char.toLower = u := by
    rw [List.map_congr_left (fun c hc => toLower_eq_self_of_slugChar c (hall c hc))]
    exact List.map_id u
  rw [h1]
  rw [collapseRuns_eq_self isWsU '-' u
    (fun c hc => isWsU_eq_false_of_slugChar c (hall c hc))]
  rw [List.filter_eq_self.mpr hall]
  rw [collapseDash_id u hchain]
  apply stripChar_eq_self
  · intro c hc
    apply beq_eq_false_iff_ne.mpr
    intro he
    exact hhd (he ▸ hc)
  · intro c hc
    apply beq_eq_false_iff_ne.mpr
    intro he
    exact hlast (he ▸ hc)

theorem head?_take_pos (l : List Char) (n : Nat) (hn : n ≠ 0) :
    (l.take n).head? = l.head? := by
  cases l with
  | nil => simp
  | cons a as =>
    cases n with
    | zero => exact absurd rfl hn
    | succ m => rfl

theorem slugify_untitled_fixed : slugify "untitled" = "untitled" := by decide

/-! ## Slugify: the main claims -/

/-- **C4 (amended)** — `slugify` fails to be idempotent only through the
final truncation: `text[:50]` can cut a long slug right after a hyphen, and
a second application strips that trailing hyphen.  On every input whose slug
does not end with a hyphen — in particular every input whose cleaned text is
at most 50 characters — `slugify (slugify x) = slugify x`. -/
theorem slugify_idem_of_no_trailing_hyphen (x : String)
    (h : (slugify x).data.getLast? ≠ some '-') :
    slugify (slugify x) = slugify x := by
  by_cases he : (slugCore x).isEmpty = true
  · have hx : slugify x = "untitled" := by
      simp only [slugify, he, if_true]
    rw [hx]
    exact slugify_untitled_fixed
  · have hne : slugCore x ≠ [] := by
      intro h0
      rw [h0] at he
      exact he rfl
    have hx : slugify x = ⟨(slugCore x).take 50⟩ := by
      simp only [slugify, he, Bool.false_eq_true, if_false]
    have hdata : (slugify x).data = (slugCore x).take 50 := by rw [hx]
    have hall : ∀ c ∈ (slugCore x).take 50, isSlugChar c = true :=
      fun c hc => mem_slugCore x c (List.take_subset 50 _ hc)
    have hchain := (chain'_slugCore x).take 50
    have hhd : ((slugCore x).take 50).head? ≠ some '-' := by
      intro h0
      rw [head?_take_pos _ 50 (by decide)] at h0
      exact head?_slugCore x h0
    have hlast : ((slugCore x).take 50).getLast? ≠ some '-' := by
      rw [← hdata]
      exact h
    have hcore : slugCore ⟨(slugCore x).take 50⟩ = (slugCore x).take 50 :=
      slugCore_of_clean _ hall hchain hhd hlast
    have htake : ((slugCore x).take 50).take 50 = (slugCore x).take 50 := by
      apply List.take_of_length_le
      rw [List.length_take]
      exact Nat.min_le_left _ _
    have hne2 : ((slugCore x).take 50).isEmpty = false := by
      cases ht : (slugCore x).take 50 with
      | nil =>
        rw [List.take_eq_nil_iff] at ht
        rcases ht with h50 | h0
        · exact absurd h50 (by decide)
        · exact absurd h0 hne
      | cons a as => rfl
    rw [hx]
    simp only [slugify, hcore, hne2, Bool.false_eq_true, if_false]
    rw [htake]

/-- **C4 (witness)** — Idempotence as amended at the input `"Hello World"`. -/
theorem slugify_idem_witness :
    slugify (slugify "Hello World") = slugify "Hello World" :=
  slugify_idem_of_no_trailing_hyphen "Hello World" (by decide)

/-- **C4 (counterexample)** — On the 51-character input `a-a-…-a`, the slug
is truncated to 50 characters ending in a hyphen, and a second `slugify`
strips it: `slugify (slugify x) ≠ slugify x`. -/
theorem slugify_not_idempotent_cex :
    slugify (slugify slugTruncationInput) ≠ slugify slugTruncationInput := by decide

/-- **C5** — For every input, `slugify` either returns `"untitled"` or a
string of at most 50 characters drawn from `[a-z0-9-]` (matching
`^[a-z0-9-]{0,50}$`); and any input none of whose characters lowercases to a
letter or digit — empty or symbol-only input — yields `"untitled"`. -/
theorem slugify_shape :
    (∀ x : String, slugify x = "untitled" ∨
      ((slugify x).data.all isSlugChar = true ∧ (slugify x).length ≤ 50)) ∧
    (∀ x : String, (∀ c ∈ x.data, isLetterDigit (Char.toLower c) = false) →
      slugify x = "untitled") := by
  constructor
  · intro x
    by_cases he : (slugCore x).isEmpty = true
    · left
      simp only [slugify, he, if_true]
    · right
      have hx : slugify x = ⟨(slugCore x).take 50⟩ := by
        simp only [slugify, he, Bool.false_eq_true, if_false]
      rw [hx]
      constructor
      · apply List.all_eq_true.mpr
        intro c hc
        exact mem_slugCore x c (List.take_subset 50 _ hc)
      · show ((slugCore x).take 50).length ≤ 50
        rw [List.length_take]
        exact Nat.min_le_left _ _
  · intro x hx
    have hmap : ∀ c ∈ x.data.map Char.toLower, isLetterDigit c = false := by
      intro c hc
      rw [List.mem_map] at hc
      obtain ⟨a, ha, rfl⟩ := hc
      exact hx a ha
    have hfilter : ∀ c ∈ (collapseRuns isWsU '-' (x.data.map Char.toLower)).filter isSlugChar,
        (c == '-') = true := by
      intro c hc
      rw [List.mem_filter] at hc
      obtain ⟨hmem, hslug⟩ := hc
      rcases mem_collapseRunsAux isWsU '-' _ false c hmem with h | h
      · subst h
        decide
      · have hld := hmap c h
        simp only [isSlugChar, hld, Bool.false_or] at hslug
        exact hslug
    have hall2 : ∀ c ∈ collapseRuns (fun c => c == '-') '-'
        ((collapseRuns isWsU '-' (x.data.map Char.toLower)).filter isSlugChar),
        (c == '-') = true := by
      intro c hc
      rcases mem_collapseRunsAux (fun c => c == '-') '-' _ false c hc with h | h
      · subst h
        decide
      · exact hfilter c h
    have hdrop : (collapseRuns (fun c => c == '-') '-'
        ((collapseRuns isWsU '-' (x.data.map Char.toLower)).filter isSlugChar)).dropWhile
          (fun c => c == '-') = [] :=
      List.dropWhile_eq_nil_iff.mpr (fun c hc => hall2 c hc)
    have hcore : slugCore x = [] := by
      unfold slugCore stripChar
      rw [hdrop]
      rfl
    simp only [slugify, hcore, List.isEmpty_nil, if_true]

/-- **C5 (witness)** — The symbol-only input `"!!!"` slugifies to
`"untitled"`. -/
theorem slugify_shape_witness : slugify "!!!" = "untitled" :=
  slugify_shape.2 "!!!" (by decide)

end AutoBlog
